import Mathlib

/-!
Verification of the fixture-generator logic of `scripts/test-pubsub.py`.

The generator `create_test_message` builds, per scenario, either a
well-formed JSON payload for a prover request or a deliberately malformed
string.  We embed the JSON documents as an inductive `Json` type, the
serialization as `json_dumps` (mirroring Python's `json.dumps` with its
default separators and ASCII escaping), and standard JSON parsing as
`json_loads`.  The fixed-point scoring formula stated in the generator's
docstring is embedded as `score` / `scoreExact`.
-/

namespace TestPubsub

/-- JSON whitespace characters. -/
def isWs (c : Char) : Bool :=
  c = ' ' || c = '\t' || c = '\n' || c = '\r'

/-- Drop leading JSON whitespace. -/
def skipWs : List Char → List Char
  | [] => []
  | c :: cs => if isWs c then skipWs cs else c :: cs

/-- Value of a decimal digit character, if it is one. -/
def digitVal (c : Char) : Option Nat :=
  if 48 ≤ c.toNat && c.toNat ≤ 57 then some (c.toNat - 48) else none

/-- Value of a hexadecimal digit character, if it is one. -/
def hexVal (c : Char) : Option Nat :=
  if 48 ≤ c.toNat && c.toNat ≤ 57 then some (c.toNat - 48)
  else if 97 ≤ c.toNat && c.toNat ≤ 102 then some (c.toNat - 87)
  else if 65 ≤ c.toNat && c.toNat ≤ 70 then some (c.toNat - 55)
  else none

/-- The character for a decimal digit. -/
def digitChar (d : Nat) : Char := Char.ofNat (48 + d)

/-- The character for a hexadecimal digit (lowercase, as Python emits). -/
def hexDigitChar (d : Nat) : Char :=
  if d < 10 then Char.ofNat (48 + d) else Char.ofNat (87 + d)

/-- Decimal representation of a natural number, as Python prints ints. -/
def natToChars (n : Nat) : List Char :=
  if n = 0 then [digitChar 0] else ((Nat.digits 10 n).map digitChar).reverse

/-- The four hex digits of a code unit below `0x10000`. -/
def uHex (n : Nat) : List Char :=
  [hexDigitChar (n / 4096 % 16), hexDigitChar (n / 256 % 16),
   hexDigitChar (n / 16 % 16), hexDigitChar (n % 16)]

/-- A `\uXXXX` escape for a code unit below `0x10000`. -/
def uEscape (n : Nat) : List Char := '\\' :: 'u' :: uHex n

/-- Escape one character the way Python's `json.dumps` (ensure_ascii) does:
quote and backslash get two-character escapes, the common control characters
get their short forms, every other character outside `0x20`–`0x7e` becomes
`\uXXXX` (a surrogate pair above `0xffff`), and the rest pass through. -/
def escapeChar (c : Char) : List Char :=
  if c = '"' then ['\\', '"']
  else if c = '\\' then ['\\', '\\']
  else if c = '\n' then ['\\', 'n']
  else if c = '\r' then ['\\', 'r']
  else if c = '\t' then ['\\', 't']
  else if c.toNat = 8 then ['\\', 'b']
  else if c.toNat = 12 then ['\\', 'f']
  else if c.toNat < 32 ∨ 126 < c.toNat then
    if c.toNat ≤ 65535 then uEscape c.toNat
    else uEscape (55296 + (c.toNat - 65536) / 1024) ++
         uEscape (56320 + (c.toNat - 65536) % 1024)
  else [c]

/-- Escape a whole character list. -/
def escapeChars : List Char → List Char
  | [] => []
  | c :: cs => escapeChar c ++ escapeChars cs

/-- JSON documents, as far as the payloads of this script need: the script
only ever emits objects, strings and non-negative integers, but arrays,
booleans and null are kept so that the parser is a standard JSON parser. -/
inductive Json where
  | null : Json
  | bool : Bool → Json
  | num : Nat → Json
  | str : String → Json
  | arr : List Json → Json
  | obj : List (String × Json) → Json

mutual

/-- Serialize a JSON document exactly as Python's `json.dumps` does with its
default separators `", "` and `": "`, preserving member order. -/
def dumpChars : Json → List Char
  | .null => 'n' :: 'u' :: 'l' :: ['l']
  | .bool b =>
    if b then 't' :: 'r' :: 'u' :: ['e']
    else 'f' :: 'a' :: ('l' :: 's' :: ['e'])
  | .num n => natToChars n
  | .str s => '"' :: (escapeChars s.data ++ ['"'])
  | .arr l => '[' :: (dumpElems l ++ [']'])
  | .obj l => '{' :: (dumpMembers l ++ ['}'])

/-- Serialize array elements, separated by `", "`. -/
def dumpElems : List Json → List Char
  | [] => []
  | [x] => dumpChars x
  | x :: y :: xs => dumpChars x ++ ',' :: ' ' :: dumpElems (y :: xs)

/-- Serialize object members, `"key": value`, separated by `", "`. -/
def dumpMembers : List (String × Json) → List Char
  | [] => []
  | [(k, v)] => '"' :: (escapeChars k.data ++ '"' :: ':' :: ' ' :: dumpChars v)
  | (k, v) :: m :: xs =>
      ('"' :: (escapeChars k.data ++ '"' :: ':' :: ' ' :: dumpChars v)) ++
      ',' :: ' ' :: dumpMembers (m :: xs)

end

/-- Serialization entry point, the model of `json.dumps`. -/
def json_dumps (j : Json) : String := String.mk (dumpChars j)

/-- Decode a short escape character (`\n`, `\t`, ...). -/
def escDecode (e : Char) : Option Char :=
  if e = '"' then some '"'
  else if e = '\\' then some '\\'
  else if e = '/' then some '/'
  else if e = 'n' then some '\n'
  else if e = 't' then some '\t'
  else if e = 'r' then some '\r'
  else if e = 'b' then some (Char.ofNat 8)
  else if e = 'f' then some (Char.ofNat 12)
  else none

/-- Combine four hexadecimal digit values into one code unit. -/
def hex4 (a b c d : Nat) : Nat := a * 4096 + b * 256 + c * 16 + d

/-- Read exactly four hex digits from the input, returning their value. -/
def parseHex4 : List Char → Option (Nat × List Char)
  | h1 :: h2 :: h3 :: h4 :: cs =>
    match hexVal h1, hexVal h2, hexVal h3, hexVal h4 with
    | some a, some b, some c, some d => some (hex4 a b c d, cs)
    | _, _, _, _ => none
  | _ => none

/-- Decode one `\uXXXX` escape (the input starts after `\u`): a lone BMP
code unit stands for itself, a high surrogate must be followed by a second
`\uXXXX` low surrogate with which it combines, and a lone low surrogate is
rejected. -/
def parseUEscape (cs : List Char) : Option (Char × List Char) :=
  match parseHex4 cs with
  | none => none
  | some (n, cs4) =>
    if 55296 ≤ n ∧ n ≤ 56319 then
      match cs4 with
      | b1 :: b2 :: cs6 =>
        if b1 = '\\' ∧ b2 = 'u' then
          match parseHex4 cs6 with
          | none => none
          | some (m, cs8) =>
            if 56320 ≤ m ∧ m ≤ 57343 then
              some (Char.ofNat (65536 + (n - 55296) * 1024 + (m - 56320)), cs8)
            else none
        else none
      | _ => none
    else if 56320 ≤ n ∧ n ≤ 57343 then none
    else some (Char.ofNat n, cs4)

/-- Parse the body of a JSON string up to and including the closing quote,
decoding escapes, recombining surrogate pairs, and rejecting unescaped
control characters and lone surrogates.  Returns the decoded characters and
the input remaining after the closing quote.  The fuel argument only bounds
the recursion; one unit per decoded character suffices, and every caller
passes the input length plus one, which always does. -/
def parseStrAux : Nat → List Char → Option (List Char × List Char)
  | 0, _ => none
  | fuel + 1, input =>
    match input with
    | [] => none
    | c :: cs =>
      if c = '"' then some ([], cs)
      else if c = '\\' then
        match cs with
        | [] => none
        | e :: cs2 =>
          if e = 'u' then
            match parseUEscape cs2 with
            | some (ch, cs') =>
              match parseStrAux fuel cs' with
              | some (s, t) => some (ch :: s, t)
              | none => none
            | none => none
          else
            match escDecode e with
            | some ch =>
              match parseStrAux fuel cs2 with
              | some (s, t) => some (ch :: s, t)
              | none => none
            | none => none
      else if c.toNat < 32 then none
      else
        match parseStrAux fuel cs with
        | some (s, t) => some (c :: s, t)
        | none => none

/-- Accumulating decimal-number scanner: consume digits, return the value
and the rest of the input. -/
def parseNatAux : List Char → Nat → Nat × List Char
  | [], acc => (acc, [])
  | c :: cs, acc =>
    match digitVal c with
    | some d => parseNatAux cs (acc * 10 + d)
    | none => (acc, c :: cs)

/-- Parse a non-negative decimal integer (at least one digit). -/
def parseNumFrom : List Char → Option (Nat × List Char)
  | [] => none
  | c :: cs =>
    match digitVal c with
    | some d => some (parseNatAux cs d)
    | none => none

mutual

/-- Parse one JSON value after skipping leading whitespace.  The fuel
argument bounds the nesting recursion; any fuel at least the nesting cost
of the input suffices. -/
def parseVal : Nat → List Char → Option (Json × List Char)
  | 0, _ => none
  | fuel + 1, input =>
    match skipWs input with
    | [] => none
    | c :: cs =>
      if c = 'n' then
        match cs with
        | x1 :: x2 :: x3 :: r =>
          if x1 = 'u' ∧ x2 = 'l' ∧ x3 = 'l' then some (.null, r) else none
        | _ => none
      else if c = 't' then
        match cs with
        | x1 :: x2 :: x3 :: r =>
          if x1 = 'r' ∧ x2 = 'u' ∧ x3 = 'e' then some (.bool true, r) else none
        | _ => none
      else if c = 'f' then
        match cs with
        | x1 :: x2 :: x3 :: x4 :: r =>
          if x1 = 'a' ∧ x2 = 'l' ∧ x3 = 's' ∧ x4 = 'e' then
            some (.bool false, r)
          else none
        | _ => none
      else if c = '"' then
        match parseStrAux (cs.length + 1) cs with
        | some (s, r) => some (.str (String.mk s), r)
        | none => none
      else if c = '[' then
        match skipWs cs with
        | [] => none
        | d :: ds =>
          if d = ']' then some (.arr [], ds)
          else
            match parseElems fuel (d :: ds) with
            | some (l, r) => some (.arr l, r)
            | none => none
      else if c = '{' then
        match skipWs cs with
        | [] => none
        | d :: ds =>
          if d = '}' then some (.obj [], ds)
          else
            match parseMembers fuel (d :: ds) with
            | some (l, r) => some (.obj l, r)
            | none => none
      else
        match parseNumFrom (c :: cs) with
        | some (n, r) => some (.num n, r)
        | none => none

/-- Parse the non-empty element list of an array, including the closing
bracket. -/
def parseElems : Nat → List Char → Option (List Json × List Char)
  | 0, _ => none
  | fuel + 1, input =>
    match parseVal fuel input with
    | some (j, r) =>
      match skipWs r with
      | [] => none
      | d :: r2 =>
        if d = ']' then some ([j], r2)
        else if d = ',' then
          match parseElems fuel r2 with
          | some (l, r3) => some (j :: l, r3)
          | none => none
        else none
    | none => none

/-- Parse the non-empty member list of an object, including the closing
brace. -/
def parseMembers : Nat → List Char → Option (List (String × Json) × List Char)
  | 0, _ => none
  | fuel + 1, input =>
    match skipWs input with
    | [] => none
    | q :: cs =>
      if q = '"' then
        match parseStrAux (cs.length + 1) cs with
        | some (k, r) =>
          match skipWs r with
          | [] => none
          | d :: r2 =>
            if d = ':' then
              match parseVal fuel r2 with
              | some (v, r3) =>
                match skipWs r3 with
                | [] => none
                | d2 :: r4 =>
                  if d2 = '}' then some ([(String.mk k, v)], r4)
                  else if d2 = ',' then
                    match parseMembers fuel r4 with
                    | some (l, r5) => some ((String.mk k, v) :: l, r5)
                    | none => none
                  else none
              | none => none
            else none
        | none => none
      else none

end

/-- Standard JSON parsing of a whole document: one value, then only
whitespace may remain.  Model of `json.loads`. -/
def json_loads (s : String) : Option Json :=
  match parseVal (s.data.length + 1) s.data with
  | some (j, rest) => if skipWs rest = [] then some j else none
  | none => none

/-- Field lookup in a member list (first match, as `dict` keys are unique
in the payloads). -/
def findField : List (String × Json) → String → Option Json
  | [], _ => none
  | (k, v) :: rest, key => if k = key then some v else findField rest key

/-- Field lookup in a JSON object. -/
def getField : Json → String → Option Json
  | .obj l, key => findField l key
  | _, _ => none

/-- The input does not begin with a decimal digit, so a number scanner
stops exactly there. -/
def NoDigitHead : List Char → Prop
  | [] => True
  | c :: _ => digitVal c = none

mutual

/-- Fuel sufficient for `parseVal` on the serialization of a document. -/
def costV : Json → Nat
  | .arr l => costE l + 1
  | .obj l => costM l + 1
  | _ => 1

/-- Fuel sufficient for `parseElems` on serialized array elements. -/
def costE : List Json → Nat
  | [] => 1
  | [x] => costV x + 1
  | x :: y :: xs => max (costV x) (costE (y :: xs)) + 1

/-- Fuel sufficient for `parseMembers` on serialized object members. -/
def costM : List (String × Json) → Nat
  | [] => 1
  | [(_, v)] => costV v + 1
  | (_, v) :: m :: xs => max (costV v) (costM (m :: xs)) + 1

end

/-- The `normal` scenario message dict: 0.75 recaptcha, SMS verified,
bio verified, the shipped weights, and the hardcoded expected output 204. -/
def normalMessage (request_id : String) : Json :=
  .obj [("request_id", .str request_id),
        ("verification_results", .obj
          [("recaptcha_score", .num 7500),
           ("sms_verified", .num 1),
           ("bio_verified", .num 1)]),
        ("public_inputs", .obj
          [("w1", .num 1500),
           ("w2", .num 2000),
           ("w3", .num 2500),
           ("w4", .num 4000),
           ("expected_output", .num 204)])]

/-- The `boundary` scenario message dict: perfect recaptcha, all verified,
expected output 255. -/
def boundaryMessage (request_id : String) : Json :=
  .obj [("request_id", .str request_id),
        ("verification_results", .obj
          [("recaptcha_score", .num 10000),
           ("sms_verified", .num 1),
           ("bio_verified", .num 1)]),
        ("public_inputs", .obj
          [("w1", .num 1500),
           ("w2", .num 2000),
           ("w3", .num 2500),
           ("w4", .num 4000),
           ("expected_output", .num 255)])]

/-- The `missing_fields` scenario message dict: `bio_verified` omitted from
`verification_results` to exercise the consumer's deserialization error. -/
def missingFieldsMessage (request_id : String) : Json :=
  .obj [("request_id", .str request_id),
        ("verification_results", .obj
          [("recaptcha_score", .num 7500),
           ("sms_verified", .num 1)]),
        ("public_inputs", .obj
          [("w1", .num 1500),
           ("w2", .num 2000),
           ("w3", .num 2500),
           ("w4", .num 4000),
           ("expected_output", .num 204)])]

/-- Embedding of `create_test_message(request_id, scenario)`: dispatch on
the scenario string, serialize the message dict with `json.dumps`, return
the raw invalid string for `invalid_json`, and raise `ValueError` (modelled
as `Except.error`) on an unknown scenario. -/
def create_test_message (request_id : String) (scenario : String) :
    Except String String :=
  if scenario = "normal" then .ok (json_dumps (normalMessage request_id))
  else if scenario = "boundary" then .ok (json_dumps (boundaryMessage request_id))
  else if scenario = "invalid_json" then .ok "\x7b invalid json \x7d"
  else if scenario = "missing_fields" then
    .ok (json_dumps (missingFieldsMessage request_id))
  else .error ("Unknown scenario: " ++ scenario)

/-- The scoring formula of the generator's docstring, in integer
arithmetic: weighted sum in the 10,000-scale domain, times 255, divided by
the scale, truncating toward zero. -/
def score (w1 w2 w3 w4 recaptcha sms bio : Nat) : Nat :=
  (w1 + w2 * recaptcha / 10000 + w3 * sms + w4 * bio) * 255 / 10000

/-- The same formula with all arithmetic carried out over the common scale
of 10,000 and a single truncation at the end. -/
def scoreExact (w1 w2 w3 w4 recaptcha sms bio : Nat) : Nat :=
  ((w1 * 10000 + w2 * recaptcha + w3 * sms * 10000 + w4 * bio * 10000) * 255) /
    (10000 * 10000)

/-! ### Character-level facts -/

theorem toNat_ofNat_of_valid {n : Nat} (h : Nat.isValidChar n) :
    Char.toNat (Char.ofNat n) = n := by
  simp only [Char.ofNat]
  rw [dif_pos h]
  rfl

theorem char_valid (c : Char) :
    c.toNat < 55296 ∨ (57343 < c.toNat ∧ c.toNat < 1114112) := by
  rcases c.valid with h | ⟨h1, h2⟩
  · exact Or.inl (UInt32.toNat_lt_of_lt (by decide) h)
  · exact Or.inr ⟨UInt32.lt_toNat_of_lt (by decide) h1,
      UInt32.toNat_lt_of_lt (by decide) h2⟩

theorem char_eq_iff {c d : Char} : c = d ↔ c.toNat = d.toNat :=
  ⟨fun h => by rw [h], fun h => Char.ext (UInt32.toNat.inj h)⟩

theorem ofNat_toNat_char (c : Char) : Char.ofNat c.toNat = c :=
  Char.ofNat_toNat c

theorem toNat_digitChar {d : Nat} (h : d < 10) : (digitChar d).toNat = 48 + d := by
  have : (48 + d).isValidChar := Or.inl (by omega)
  simpa [digitChar] using toNat_ofNat_of_valid this

theorem digitVal_digitChar {d : Nat} (h : d < 10) :
    digitVal (digitChar d) = some d := by
  have ht := toNat_digitChar h
  simp only [digitVal, ht]
  have h1 : 48 ≤ 48 + d := by omega
  have h2 : 48 + d ≤ 57 := by omega
  simp [h1, h2]

theorem toNat_hexDigitChar {d : Nat} (h : d < 16) :
    (hexDigitChar d).toNat = if d < 10 then 48 + d else 87 + d := by
  by_cases h10 : d < 10
  · have : (48 + d).isValidChar := Or.inl (by omega)
    simp [hexDigitChar, h10, toNat_ofNat_of_valid this]
  · have : (87 + d).isValidChar := Or.inl (by omega)
    simp [hexDigitChar, h10, toNat_ofNat_of_valid this]

theorem hexVal_hexDigitChar {d : Nat} (h : d < 16) :
    hexVal (hexDigitChar d) = some d := by
  have ht := toNat_hexDigitChar h
  by_cases h10 : d < 10
  · rw [if_pos h10] at ht
    simp only [hexVal, ht]
    have h1 : 48 ≤ 48 + d := by omega
    have h2 : 48 + d ≤ 57 := by omega
    simp [h1, h2]
  · rw [if_neg h10] at ht
    simp only [hexVal, ht]
    have h1 : ¬ (48 ≤ 87 + d && 87 + d ≤ 57) = true := by
      simp only [Bool.and_eq_true, decide_eq_true_eq]
      omega
    have h2 : 97 ≤ 87 + d := by omega
    have h3 : 87 + d ≤ 102 := by omega
    simp [h1, h2, h3]

theorem digitVal_none_of_toNat {c : Char} (h : c.toNat < 48 ∨ 57 < c.toNat) :
    digitVal c = none := by
  simp only [digitVal, ite_eq_right_iff]
  intro hcontra
  simp only [Bool.and_eq_true, decide_eq_true_eq] at hcontra
  omega

/-! ### Whitespace-skipping facts -/

theorem isWs_false_of_toNat {c : Char}
    (h : c.toNat ≠ 32 ∧ c.toNat ≠ 9 ∧ c.toNat ≠ 10 ∧ c.toNat ≠ 13) :
    isWs c = false := by
  simp only [isWs, Bool.or_eq_false_iff, decide_eq_false_iff_not]
  refine ⟨⟨⟨fun hc => ?_, fun hc => ?_⟩, fun hc => ?_⟩, fun hc => ?_⟩ <;>
    rw [char_eq_iff] at hc <;> revert hc <;> simp <;> omega

theorem skipWs_not_ws {c : Char} (h : isWs c = false) (cs : List Char) :
    skipWs (c :: cs) = c :: cs := by
  simp [skipWs, h]

theorem skipWs_space (cs : List Char) : skipWs (' ' :: cs) = skipWs cs := by
  simp [skipWs, isWs]

/-! ### Decimal-number round trip -/

theorem parseNatAux_digits (ds : List Nat) (hds : ∀ d ∈ ds, d < 10) :
    ∀ (rest : List Char) (acc : Nat), NoDigitHead rest →
      parseNatAux ((ds.map digitChar).reverse ++ rest) acc =
        (Nat.ofDigits 10 ds + acc * 10 ^ ds.length, rest) := by
  induction ds using List.reverseRecOn with
  | nil =>
    intro rest acc hrest
    match rest with
    | [] => simp [parseNatAux, Nat.ofDigits_nil]
    | c :: cs =>
      simp only [NoDigitHead] at hrest
      simp [parseNatAux, hrest, Nat.ofDigits_nil]
  | append_singleton ds d ih =>
    intro rest acc hrest
    have hd : d < 10 := hds d (by simp)
    have hds' : ∀ x ∈ ds, x < 10 := fun x hx => hds x (by simp [hx])
    simp only [List.reverse_append, List.map_append, List.reverse_cons,
      List.map_cons, List.reverse_nil, List.map_nil, List.nil_append,
      List.cons_append, List.singleton_append]
    rw [parseNatAux, digitVal_digitChar hd]
    dsimp only
    rw [ih hds' rest (acc * 10 + d) hrest]
    rw [Nat.ofDigits_append]
    simp only [Nat.ofDigits_singleton, List.length_append, List.length_cons,
      List.length_nil]
    rw [Prod.mk.injEq]
    exact ⟨by ring, rfl⟩

theorem parseNumFrom_natToChars (n : Nat) (rest : List Char)
    (hrest : NoDigitHead rest) :
    parseNumFrom (natToChars n ++ rest) = some (n, rest) := by
  by_cases h0 : n = 0
  · subst h0
    rw [show natToChars 0 = [digitChar 0] from rfl, List.singleton_append]
    rw [parseNumFrom.eq_def]
    dsimp only
    rw [digitVal_digitChar (by omega)]
    dsimp only
    have := parseNatAux_digits [] (by simp) rest 0 hrest
    simp only [List.map_nil, List.reverse_nil, List.nil_append] at this
    simp [this]
  · have hne : Nat.digits 10 n ≠ [] := Nat.digits_ne_nil_iff_ne_zero.mpr h0
    rcases hrev : (Nat.digits 10 n).reverse with _ | ⟨d, t⟩
    · exact absurd (by simpa using congrArg List.reverse hrev) hne
    · have hmem : ∀ x ∈ Nat.digits 10 n, x < 10 :=
        fun x hx => Nat.digits_lt_base (by omega) hx
    -- the digits of n, most significant first, are d :: t
      have hd : d < 10 := by
        apply hmem
        have : d ∈ (Nat.digits 10 n).reverse := by rw [hrev]; simp
        simpa using this
      have hchars : natToChars n = digitChar d :: t.map digitChar := by
        simp only [natToChars, if_neg h0]
        rw [← List.map_reverse, hrev]
        simp
      rw [hchars, List.cons_append, parseNumFrom.eq_def]
      dsimp only
      rw [digitVal_digitChar hd]
      dsimp only
      have hrt : (t.reverse.map digitChar).reverse = t.map digitChar := by
        rw [← List.map_reverse, List.reverse_reverse]
      have happ := parseNatAux_digits t.reverse
        (fun x hx => by
          apply hmem
          have hx' : x ∈ t := List.mem_reverse.mp hx
          have : x ∈ (Nat.digits 10 n).reverse := by
            rw [hrev]; exact List.mem_cons_of_mem d hx'
          simpa using this)
        rest d hrest
      rw [hrt] at happ
      rw [happ]
      have hds : Nat.digits 10 n = t.reverse ++ [d] := by
        have := congrArg List.reverse hrev
        simpa using this
      have hn : Nat.ofDigits 10 (t.reverse) + d * 10 ^ t.reverse.length = n := by
        conv_rhs => rw [← Nat.ofDigits_digits 10 n, hds]
        rw [Nat.ofDigits_append]
        simp [Nat.ofDigits_singleton, Nat.mul_comm]
      simp only [List.length_reverse] at hn
      rw [List.length_reverse]
      rw [hn]

/-! ### String-escape round trip -/

theorem ne_char_of_toNat_ne {c d : Char} (h : c.toNat ≠ d.toNat) : c ≠ d :=
  fun he => h (char_eq_iff.mp he)

theorem fuel_succ {f : Nat} (h : 1 ≤ f) : ∃ g, f = g + 1 := by
  refine ⟨f - 1, ?_⟩
  omega

theorem hex4_digits {n : Nat} (h : n < 65536) :
    hex4 (n / 4096 % 16) (n / 256 % 16) (n / 16 % 16) (n % 16) = n := by
  unfold hex4
  omega

theorem parseHex4_uHex {n : Nat} (h : n < 65536) (tail : List Char) :
    parseHex4 (uHex n ++ tail) = some (n, tail) := by
  have h1 : n / 4096 % 16 < 16 := Nat.mod_lt _ (by omega)
  have h2 : n / 256 % 16 < 16 := Nat.mod_lt _ (by omega)
  have h3 : n / 16 % 16 < 16 := Nat.mod_lt _ (by omega)
  have h4 : n % 16 < 16 := Nat.mod_lt _ (by omega)
  simp only [uHex, List.cons_append, List.nil_append]
  rw [parseHex4]
  rw [hexVal_hexDigitChar h1, hexVal_hexDigitChar h2, hexVal_hexDigitChar h3,
    hexVal_hexDigitChar h4]
  dsimp only
  rw [hex4_digits h]

theorem parseUEscape_bmp (c : Char) (hn : c.toNat ≤ 65535) (tail : List Char) :
    parseUEscape (uHex c.toNat ++ tail) = some (c, tail) := by
  have hval := char_valid c
  have hs1 : ¬ (55296 ≤ c.toNat ∧ c.toNat ≤ 56319) := by omega
  have hs2 : ¬ (56320 ≤ c.toNat ∧ c.toNat ≤ 57343) := by omega
  rw [parseUEscape, parseHex4_uHex (by omega) tail]
  dsimp only
  rw [if_neg hs1, if_neg hs2, ofNat_toNat_char]

theorem parseUEscape_pair (c : Char) (hn : 65535 < c.toNat) (tail : List Char) :
    parseUEscape (uHex (55296 + (c.toNat - 65536) / 1024) ++
      '\\' :: 'u' :: (uHex (56320 + (c.toNat - 65536) % 1024) ++ tail)) =
      some (c, tail) := by
  have hval := char_valid c
  set hi := 55296 + (c.toNat - 65536) / 1024 with hhi
  set lo := 56320 + (c.toNat - 65536) % 1024 with hlo
  have hdiv : (c.toNat - 65536) / 1024 < 1024 := Nat.div_lt_of_lt_mul (by omega)
  have hmod : (c.toNat - 65536) % 1024 < 1024 := Nat.mod_lt _ (by omega)
  have hrange1 : 55296 ≤ hi ∧ hi ≤ 56319 := by omega
  have hrange2 : 56320 ≤ lo ∧ lo ≤ 57343 := by omega
  have hrec : Char.ofNat (65536 + (hi - 55296) * 1024 + (lo - 56320)) = c := by
    have he : 65536 + (hi - 55296) * 1024 + (lo - 56320) = c.toNat := by
      have e1 : hi - 55296 = (c.toNat - 65536) / 1024 := by omega
      have e2 : lo - 56320 = (c.toNat - 65536) % 1024 := by omega
      rw [e1, e2]
      omega
    rw [he, ofNat_toNat_char]
  rw [parseUEscape, parseHex4_uHex (by omega)]
  dsimp only
  rw [if_pos hrange1]
  rw [if_pos ⟨rfl, rfl⟩]
  rw [parseHex4_uHex (by omega) tail]
  dsimp only
  rw [if_pos hrange2, hrec]

theorem parseStrAux_escapeChar (c : Char) (f : Nat) (tail l' rest : List Char)
    (ih : parseStrAux f tail = some (l', rest)) :
    parseStrAux (f + 1) (escapeChar c ++ tail) = some (c :: l', rest) := by
  by_cases h1 : c = '"'
  · subst h1
    rw [show escapeChar '"' = ['\\', '"'] from rfl]
    simp only [List.cons_append, List.singleton_append]
    rw [parseStrAux.eq_def]
    simp +decide [escDecode, ih]
  by_cases h2 : c = '\\'
  · subst h2
    rw [show escapeChar '\\' = ['\\', '\\'] from rfl]
    simp only [List.cons_append, List.singleton_append]
    rw [parseStrAux.eq_def]
    simp +decide [escDecode, ih]
  by_cases h3 : c = '\n'
  · subst h3
    rw [show escapeChar '\n' = ['\\', 'n'] from rfl]
    simp only [List.cons_append, List.singleton_append]
    rw [parseStrAux.eq_def]
    simp +decide [escDecode, ih]
  by_cases h4 : c = '\r'
  · subst h4
    rw [show escapeChar '\x0d' = ['\\', 'r'] from rfl]
    simp only [List.cons_append, List.singleton_append]
    rw [parseStrAux.eq_def]
    simp +decide [escDecode, ih]
  by_cases h5 : c = '\t'
  · subst h5
    rw [show escapeChar '\t' = ['\\', 't'] from rfl]
    simp only [List.cons_append, List.singleton_append]
    rw [parseStrAux.eq_def]
    simp +decide [escDecode, ih]
  by_cases h6 : c.toNat = 8
  · have hc : Char.ofNat 8 = c := by rw [← h6, ofNat_toNat_char]
    rw [escapeChar, if_neg h1, if_neg h2, if_neg h3, if_neg h4, if_neg h5,
      if_pos h6]
    simp only [List.cons_append, List.singleton_append]
    rw [parseStrAux.eq_def]
    simp +decide [escDecode, ih]
    exact hc
  by_cases h7 : c.toNat = 12
  · have hc : Char.ofNat 12 = c := by rw [← h7, ofNat_toNat_char]
    rw [escapeChar, if_neg h1, if_neg h2, if_neg h3, if_neg h4, if_neg h5,
      if_neg h6, if_pos h7]
    simp only [List.cons_append, List.singleton_append]
    rw [parseStrAux.eq_def]
    simp +decide [escDecode, ih]
    exact hc
  by_cases h8 : c.toNat < 32 ∨ 126 < c.toNat
  · rw [escapeChar, if_neg h1, if_neg h2, if_neg h3, if_neg h4, if_neg h5,
      if_neg h6, if_neg h7, if_pos h8]
    by_cases h9 : c.toNat ≤ 65535
    · rw [if_pos h9]
      rw [uEscape]
      simp only [List.cons_append]
      rw [parseStrAux.eq_def]
      simp +decide [parseUEscape_bmp c h9, ih]
    · rw [if_neg h9]
      rw [uEscape, uEscape]
      simp only [List.cons_append, List.append_assoc]
      rw [parseStrAux.eq_def]
      dsimp only
      rw [if_neg (by decide : ¬ ('\\' : Char) = '"'),
        if_pos (rfl : ('\\' : Char) = '\\')]
      rw [if_pos (rfl : ('u' : Char) = 'u')]
      rw [parseUEscape_pair c (by omega) tail]
      dsimp only
      rw [ih]
  · rw [escapeChar, if_neg h1, if_neg h2, if_neg h3, if_neg h4, if_neg h5,
      if_neg h6, if_neg h7, if_neg h8]
    have hc32 : ¬ c.toNat < 32 := by omega
    simp only [List.singleton_append]
    rw [parseStrAux.eq_def]
    dsimp only
    rw [if_neg h1, if_neg h2, if_neg hc32, ih]

theorem parseStrAux_escape (l : List Char) :
    ∀ (f : Nat) (rest : List Char), l.length < f →
      parseStrAux f (escapeChars l ++ '"' :: rest) = some (l, rest) := by
  induction l with
  | nil =>
    intro f rest hf
    obtain ⟨f', rfl⟩ := fuel_succ (show 1 ≤ f by omega)
    rw [escapeChars, List.nil_append, parseStrAux.eq_def]
    simp
  | cons c cs ih =>
    intro f rest hf
    obtain ⟨f', rfl⟩ := fuel_succ (show 1 ≤ f by omega)
    rw [escapeChars, List.append_assoc]
    exact parseStrAux_escapeChar c f' _ cs rest
      (ih f' rest (by simp only [List.length_cons] at hf; omega))

theorem escapeChar_length_pos (c : Char) : 1 ≤ (escapeChar c).length := by
  unfold escapeChar
  repeat' split
  all_goals simp [uEscape, uHex]

theorem length_le_escapeChars (l : List Char) :
    l.length ≤ (escapeChars l).length := by
  induction l with
  | nil => simp [escapeChars]
  | cons c cs ih =>
    rw [escapeChars, List.length_append, List.length_cons]
    have := escapeChar_length_pos c
    omega

/-! ### Shapes of serialized documents -/

theorem string_mk_data (s : String) : String.mk s.data = s := rfl

theorem noDigitHead_nil : NoDigitHead [] := trivial

theorem noDigitHead_cons {c : Char} {cs : List Char} (h : digitVal c = none) :
    NoDigitHead (c :: cs) := h

theorem natToChars_head (n : Nat) :
    ∃ d t, d < 10 ∧ natToChars n = digitChar d :: t := by
  by_cases h0 : n = 0
  · subst h0
    exact ⟨0, [], by omega, rfl⟩
  · rcases hrev : (Nat.digits 10 n).reverse with _ | ⟨d, t⟩
    · exact absurd (by simpa using congrArg List.reverse hrev)
        (Nat.digits_ne_nil_iff_ne_zero.mpr h0)
    · refine ⟨d, t.map digitChar, ?_, ?_⟩
      · have : d ∈ Nat.digits 10 n := by
          have : d ∈ (Nat.digits 10 n).reverse := by rw [hrev]; simp
          simpa using this
        exact Nat.digits_lt_base (by omega) this
      · simp only [natToChars, if_neg h0]
        rw [← List.map_reverse, hrev]
        simp

theorem dump_head (j : Json) :
    ∃ c t, dumpChars j = c :: t ∧
      (c.toNat = 34 ∨ c.toNat = 91 ∨ c.toNat = 123 ∨ c.toNat = 110 ∨
       c.toNat = 116 ∨ c.toNat = 102 ∨ (48 ≤ c.toNat ∧ c.toNat ≤ 57)) := by
  cases j with
  | null => exact ⟨'n', _, rfl, by decide⟩
  | bool b =>
    cases b
    · exact ⟨'f', _, by rw [dumpChars, if_neg (by decide)], by decide⟩
    · exact ⟨'t', _, by rw [dumpChars, if_pos rfl], by decide⟩
  | num n =>
    obtain ⟨d, t, hd, ht⟩ := natToChars_head n
    refine ⟨digitChar d, t, ?_, ?_⟩
    · rw [dumpChars, ht]
    · rw [toNat_digitChar hd]
      omega
  | str s => exact ⟨'"', _, rfl, by decide⟩
  | arr l => exact ⟨'[', _, rfl, by decide⟩
  | obj l => exact ⟨'{', _, rfl, by decide⟩

theorem dumpMembers_head (kv : String × Json) (ms : List (String × Json)) :
    ∃ t, dumpMembers (kv :: ms) = '"' :: t := by
  obtain ⟨k, v⟩ := kv
  cases ms with
  | nil => exact ⟨_, rfl⟩
  | cons m2 ms2 => exact ⟨_, by rw [dumpMembers, List.cons_append]⟩

/-! ### Whitespace neutrality of the parsers -/

theorem parseVal_ws (g : Nat) (l : List Char) :
    parseVal g (' ' :: l) = parseVal g l := by
  cases g with
  | zero => rfl
  | succ g =>
    rw [parseVal.eq_def, parseVal.eq_def]
    dsimp only
    rw [skipWs_space]

theorem parseElems_ws (g : Nat) (l : List Char) :
    parseElems g (' ' :: l) = parseElems g l := by
  cases g with
  | zero => rfl
  | succ g =>
    rw [parseElems.eq_def, parseElems.eq_def]
    dsimp only
    rw [parseVal_ws]

theorem parseMembers_ws (g : Nat) (l : List Char) :
    parseMembers g (' ' :: l) = parseMembers g l := by
  cases g with
  | zero => rfl
  | succ g =>
    rw [parseMembers.eq_def, parseMembers.eq_def]
    dsimp only
    rw [skipWs_space]

/-! ### Positivity of the fuel costs -/

theorem costV_pos (j : Json) : 1 ≤ costV j := by
  cases j <;> simp [costV]

theorem costE_pos (l : List Json) : 1 ≤ costE l := by
  match l with
  | [] => simp [costE]
  | [x] => simp [costE]
  | x :: y :: xs => simp [costE]

theorem costM_pos (l : List (String × Json)) : 1 ≤ costM l := by
  match l with
  | [] => simp [costM]
  | [(k, v)] => simp [costM]
  | (k, v) :: m :: xs => simp [costM]

theorem digitChar_ne {d : Nat} (hd : d < 10) {c : Char}
    (hc : c.toNat < 48 ∨ 57 < c.toNat) : digitChar d ≠ c :=
  ne_char_of_toNat_ne (by rw [toNat_digitChar hd]; omega)

/-! ### Parsing inverts serialization -/

mutual

theorem parseV_dump (j : Json) : ∀ (f : Nat) (rest : List Char),
    costV j ≤ f + 1 → NoDigitHead rest →
    parseVal (f + 1) (dumpChars j ++ rest) = some (j, rest) := by
  cases j with
  | null =>
    intro f rest hc hnd
    rw [dumpChars]
    simp only [List.cons_append, List.singleton_append, List.nil_append]
    rw [parseVal.eq_def]
    dsimp only
    rw [skipWs_not_ws (by decide) _]
    dsimp only
    rw [if_pos rfl, if_pos ⟨rfl, rfl, rfl⟩]
  | bool b =>
    intro f rest hc hnd
    cases b with
    | true =>
      rw [dumpChars, if_pos rfl]
      simp only [List.cons_append, List.singleton_append, List.nil_append]
      rw [parseVal.eq_def]
      dsimp only
      rw [skipWs_not_ws (by decide) _]
      dsimp only
      rw [if_neg (by decide), if_pos rfl, if_pos ⟨rfl, rfl, rfl⟩]
    | false =>
      rw [dumpChars, if_neg (by decide)]
      simp only [List.cons_append, List.singleton_append, List.nil_append]
      rw [parseVal.eq_def]
      dsimp only
      rw [skipWs_not_ws (by decide) _]
      dsimp only
      rw [if_neg (by decide), if_neg (by decide), if_pos rfl,
        if_pos ⟨rfl, rfl, rfl, rfl⟩]
  | num n =>
    intro f rest hc hnd
    obtain ⟨d, t, hd, ht⟩ := natToChars_head n
    rw [dumpChars, ht, List.cons_append, parseVal.eq_def]
    dsimp only
    have hws : isWs (digitChar d) = false := by
      apply isWs_false_of_toNat
      rw [toNat_digitChar hd]
      omega
    rw [skipWs_not_ws hws _]
    dsimp only
    rw [if_neg (digitChar_ne hd (by decide)), if_neg (digitChar_ne hd (by decide)),
      if_neg (digitChar_ne hd (by decide)), if_neg (digitChar_ne hd (by decide)),
      if_neg (digitChar_ne hd (by decide)), if_neg (digitChar_ne hd (by decide))]
    rw [← List.cons_append, ← ht, parseNumFrom_natToChars n rest hnd]
  | str s =>
    intro f rest hc hnd
    rw [dumpChars, List.cons_append, List.append_assoc, List.singleton_append,
      parseVal.eq_def]
    dsimp only
    rw [skipWs_not_ws (by decide) _]
    dsimp only
    rw [if_neg (by decide), if_neg (by decide), if_neg (by decide), if_pos rfl]
    have hlen : s.data.length <
        (escapeChars s.data ++ '"' :: rest).length + 1 := by
      rw [List.length_append]
      have := length_le_escapeChars s.data
      omega
    rw [parseStrAux_escape s.data _ rest hlen]
  | arr l =>
    intro f rest hc hnd
    cases l with
    | nil =>
      rw [dumpChars, dumpElems]
      simp only [List.nil_append, List.cons_append, List.singleton_append]
      rw [parseVal.eq_def]
      dsimp only
      rw [skipWs_not_ws (by decide) _]
      dsimp only
      rw [if_neg (by decide), if_neg (by decide), if_neg (by decide),
        if_neg (by decide), if_pos rfl]
      rw [skipWs_not_ws (by decide) _]
      dsimp only
      rw [if_pos rfl]
    | cons x xs =>
      have hE : costE (x :: xs) ≤ f := by
        rw [costV] at hc
        omega
      obtain ⟨g, rfl⟩ := fuel_succ (le_trans (costE_pos (x :: xs)) hE)
      obtain ⟨c, t, hct, hcf⟩ := dump_head x
      have hdE : ∃ u, dumpElems (x :: xs) = c :: u := by
        cases xs with
        | nil => exact ⟨t, by rw [dumpElems, hct]⟩
        | cons y ys =>
          exact ⟨t ++ ',' :: ' ' :: dumpElems (y :: ys),
            by rw [dumpElems, hct, List.cons_append]⟩
      obtain ⟨u, hu⟩ := hdE
      rw [dumpChars, List.cons_append, List.append_assoc,
        List.singleton_append, parseVal.eq_def]
      dsimp only
      rw [skipWs_not_ws (by decide) _]
      dsimp only
      rw [if_neg (by decide), if_neg (by decide), if_neg (by decide),
        if_neg (by decide), if_pos rfl]
      rw [hu, List.cons_append]
      have hws : isWs c = false := isWs_false_of_toNat (by omega)
      rw [skipWs_not_ws hws _]
      dsimp only
      have hne : ¬ c = ']' := by
        apply Ne.symm
        apply ne_char_of_toNat_ne
        have h93 : (']' : Char).toNat = 93 := by decide
        rw [h93]
        omega
      rw [if_neg hne]
      rw [← List.cons_append, ← hu]
      rw [parseE_dump x xs g rest (by omega)]
  | obj l =>
    intro f rest hc hnd
    cases l with
    | nil =>
      rw [dumpChars, dumpMembers]
      simp only [List.nil_append, List.cons_append, List.singleton_append]
      rw [parseVal.eq_def]
      dsimp only
      rw [skipWs_not_ws (by decide) _]
      dsimp only
      rw [if_neg (by decide), if_neg (by decide), if_neg (by decide),
        if_neg (by decide), if_neg (by decide), if_pos rfl]
      rw [skipWs_not_ws (by decide) _]
      dsimp only
      rw [if_pos rfl]
    | cons m ms =>
      have hM : costM (m :: ms) ≤ f := by
        rw [costV] at hc
        omega
      obtain ⟨g, rfl⟩ := fuel_succ (le_trans (costM_pos (m :: ms)) hM)
      obtain ⟨u, hu⟩ := dumpMembers_head m ms
      rw [dumpChars, List.cons_append, List.append_assoc,
        List.singleton_append, parseVal.eq_def]
      dsimp only
      rw [skipWs_not_ws (by decide) _]
      dsimp only
      rw [if_neg (by decide), if_neg (by decide), if_neg (by decide),
        if_neg (by decide), if_neg (by decide), if_pos rfl]
      rw [hu, List.cons_append]
      rw [skipWs_not_ws (by decide) _]
      dsimp only
      rw [if_neg (by decide)]
      rw [← List.cons_append, ← hu]
      rw [parseM_dump m ms g rest (by omega)]
termination_by sizeOf j

theorem parseE_dump (x : Json) (xs : List Json) : ∀ (f : Nat) (rest : List Char),
    costE (x :: xs) ≤ f + 1 →
    parseElems (f + 1) (dumpElems (x :: xs) ++ ']' :: rest) =
      some (x :: xs, rest) := by
  cases xs with
  | nil =>
    intro f rest hc
    have hV : costV x ≤ f := by
      rw [costE] at hc
      omega
    obtain ⟨g, rfl⟩ := fuel_succ (le_trans (costV_pos x) hV)
    rw [dumpElems, parseElems.eq_def]
    dsimp only
    rw [parseV_dump x g (']' :: rest) (by omega) (noDigitHead_cons (by decide))]
    dsimp only
    rw [skipWs_not_ws (by decide) _]
    dsimp only
    rw [if_pos rfl]
  | cons y ys =>
    intro f rest hc
    rw [costE] at hc
    have hm := Nat.le_of_succ_le_succ hc
    obtain ⟨h1, h2⟩ := Nat.max_le.mp hm
    obtain ⟨g, rfl⟩ := fuel_succ (le_trans (costV_pos x) h1)
    rw [dumpElems]
    simp only [List.cons_append, List.append_assoc]
    rw [parseElems.eq_def]
    dsimp only
    rw [parseV_dump x g _ (by omega) (noDigitHead_cons (by decide))]
    dsimp only
    rw [skipWs_not_ws (by decide) _]
    dsimp only
    rw [if_neg (by decide), if_pos rfl]
    rw [parseElems_ws]
    rw [parseE_dump y ys g rest (by omega)]
termination_by 1 + sizeOf x + sizeOf xs

theorem parseM_dump (kv : String × Json) (ms : List (String × Json)) :
    ∀ (f : Nat) (rest : List Char),
    costM (kv :: ms) ≤ f + 1 →
    parseMembers (f + 1) (dumpMembers (kv :: ms) ++ '}' :: rest) =
      some (kv :: ms, rest) := by
  obtain ⟨k, v⟩ := kv
  cases ms with
  | nil =>
    intro f rest hc
    have hV : costV v ≤ f := by
      rw [costM] at hc
      omega
    obtain ⟨g, rfl⟩ := fuel_succ (le_trans (costV_pos v) hV)
    rw [dumpMembers]
    simp only [List.cons_append, List.append_assoc]
    rw [parseMembers.eq_def]
    dsimp only
    rw [skipWs_not_ws (by decide) _]
    dsimp only
    rw [if_pos rfl]
    have hlen : k.data.length < (escapeChars k.data ++
        '"' :: ':' :: ' ' :: (dumpChars v ++ '}' :: rest)).length + 1 := by
      rw [List.length_append]
      have := length_le_escapeChars k.data
      omega
    rw [parseStrAux_escape k.data _ _ hlen]
    dsimp only
    rw [skipWs_not_ws (by decide) _]
    dsimp only
    rw [if_pos rfl]
    rw [parseVal_ws]
    rw [parseV_dump v g ('}' :: rest) (by omega) (noDigitHead_cons (by decide))]
    dsimp only
    rw [skipWs_not_ws (by decide) _]
    dsimp only
    rw [if_pos rfl, string_mk_data]
  | cons m2 ms2 =>
    intro f rest hc
    rw [costM] at hc
    have hm := Nat.le_of_succ_le_succ hc
    obtain ⟨h1, h2⟩ := Nat.max_le.mp hm
    obtain ⟨g, rfl⟩ := fuel_succ (le_trans (costV_pos v) h1)
    rw [dumpMembers]
    simp only [List.cons_append, List.append_assoc]
    rw [parseMembers.eq_def]
    dsimp only
    rw [skipWs_not_ws (by decide) _]
    dsimp only
    rw [if_pos rfl]
    have hlen : k.data.length < (escapeChars k.data ++
        '"' :: ':' :: ' ' :: (dumpChars v ++
          ',' :: ' ' :: (dumpMembers (m2 :: ms2) ++ '}' :: rest))).length + 1 := by
      rw [List.length_append]
      have := length_le_escapeChars k.data
      omega
    rw [parseStrAux_escape k.data _ _ hlen]
    dsimp only
    rw [skipWs_not_ws (by decide) _]
    dsimp only
    rw [if_pos rfl]
    rw [parseVal_ws]
    rw [parseV_dump v g _ (by omega) (noDigitHead_cons (by decide))]
    dsimp only
    rw [skipWs_not_ws (by decide) _]
    dsimp only
    rw [if_neg (by decide), if_pos rfl]
    rw [parseMembers_ws]
    rw [parseM_dump m2 ms2 g rest (by omega)]
termination_by 1 + sizeOf kv + sizeOf ms

end

/-! ### The default fuel is always sufficient -/

mutual

theorem costV_le (j : Json) : costV j ≤ (dumpChars j).length + 1 := by
  cases j with
  | null => simp [costV, dumpChars]
  | bool b => cases b <;> simp [costV, dumpChars]
  | num n => simp [costV]
  | str s => simp [costV]
  | arr l =>
    cases l with
    | nil => simp [costV, costE, dumpChars, dumpElems]
    | cons x xs =>
      have h := costE_le (x :: xs)
      rw [costV, dumpChars]
      simp only [List.length_cons, List.length_append]
      omega
  | obj l =>
    cases l with
    | nil => simp [costV, costM, dumpChars, dumpMembers]
    | cons m ms =>
      have h := costM_le (m :: ms)
      rw [costV, dumpChars]
      simp only [List.length_cons, List.length_append]
      omega

theorem costE_le (l : List Json) : costE l ≤ (dumpElems l).length + 2 := by
  match l with
  | [] => simp [costE, dumpElems]
  | [x] =>
    have h := costV_le x
    rw [costE, dumpElems]
    omega
  | x :: y :: xs =>
    have h1 := costV_le x
    have h2 := costE_le (y :: xs)
    obtain ⟨c, t, hct, _⟩ := dump_head x
    have h3 : 1 ≤ (dumpChars x).length := by rw [hct]; simp
    rw [costE, dumpElems]
    simp only [List.length_append, List.length_cons]
    cases Nat.le_total (costV x) (costE (y :: xs)) with
    | inl hle => rw [Nat.max_eq_right hle]; omega
    | inr hle => rw [Nat.max_eq_left hle]; omega

theorem costM_le (l : List (String × Json)) :
    costM l ≤ (dumpMembers l).length + 2 := by
  match l with
  | [] => simp [costM, dumpMembers]
  | [(k, v)] =>
    have h := costV_le v
    rw [costM, dumpMembers]
    simp only [List.length_cons, List.length_append]
    omega
  | (k, v) :: m :: xs =>
    have h1 := costV_le v
    have h2 := costM_le (m :: xs)
    rw [costM, dumpMembers]
    simp only [List.length_append, List.length_cons]
    cases Nat.le_total (costV v) (costM (m :: xs)) with
    | inl hle => rw [Nat.max_eq_right hle]; omega
    | inr hle => rw [Nat.max_eq_left hle]; omega

end

theorem data_mk (l : List Char) : (String.mk l).data = l := rfl

/-- Parsing inverts serialization: `json.loads` of `json.dumps` returns the
original document, for every document. -/
theorem json_loads_dumps (j : Json) : json_loads (json_dumps j) = some j := by
  rw [json_dumps, json_loads]
  simp only [data_mk]
  have hb := costV_le j
  have h := parseV_dump j (dumpChars j).length [] (by omega) noDigitHead_nil
  rw [List.append_nil] at h
  rw [h]
  dsimp only
  rw [if_pos (show skipWs [] = [] from rfl)]

/-! ### Claim theorems -/

/-- C1: the claimed invariant
`expected_output = floor((w1 + w2*recaptcha/10000 + w3*sms + w4*bio) * 255 / 10000)`
fails on the Normal payload the generator ships: its embedded
`expected_output` is 204 while the documented formula yields 242 on its
embedded inputs (242 both with the single final truncation and with
intermediate truncation), so the code contradicts its own docstring. -/
theorem c1_normal_payload_violates_scoring_invariant :
    create_test_message "test-1" "normal" =
      Except.ok (json_dumps (normalMessage "test-1")) ∧
    getField (normalMessage "test-1") "verification_results" =
      some (.obj [("recaptcha_score", .num 7500), ("sms_verified", .num 1),
        ("bio_verified", .num 1)]) ∧
    getField (normalMessage "test-1") "public_inputs" =
      some (.obj [("w1", .num 1500), ("w2", .num 2000), ("w3", .num 2500),
        ("w4", .num 4000), ("expected_output", .num 204)]) ∧
    scoreExact 1500 2000 2500 4000 7500 1 1 = 242 ∧
    score 1500 2000 2500 4000 7500 1 1 = 242 ∧
    (204 : Nat) ≠ 242 :=
  ⟨rfl, rfl, rfl, rfl, rfl, by decide⟩

/-- C2: for every request id, the Normal scenario produces the payload with
recaptcha 7500, sms 1, bio 1, weights 1500/2000/2500/4000 and expected
output 204, and the payload parses back to exactly that message. -/
theorem c2_normal_scenario_payload (rid : String) :
    create_test_message rid "normal" =
      Except.ok (json_dumps (normalMessage rid)) ∧
    json_loads (json_dumps (normalMessage rid)) = some (normalMessage rid) ∧
    getField (normalMessage rid) "request_id" = some (.str rid) ∧
    getField (normalMessage rid) "verification_results" =
      some (.obj [("recaptcha_score", .num 7500), ("sms_verified", .num 1),
        ("bio_verified", .num 1)]) ∧
    getField (normalMessage rid) "public_inputs" =
      some (.obj [("w1", .num 1500), ("w2", .num 2000), ("w3", .num 2500),
        ("w4", .num 4000), ("expected_output", .num 204)]) :=
  ⟨rfl, json_loads_dumps _, rfl, rfl, rfl⟩

/-- C3: for every request id, the Boundary scenario produces the payload
with maximal inputs and expected output 255; the documented formula attains
exactly 255 there, and no valid inputs under the shipped weights can push
it above 255. -/
theorem c3_boundary_scenario_saturates (rid : String) (r s b : Nat)
    (hr : r ≤ 10000) (hs : s ≤ 1) (hb : b ≤ 1) :
    create_test_message rid "boundary" =
      Except.ok (json_dumps (boundaryMessage rid)) ∧
    json_loads (json_dumps (boundaryMessage rid)) = some (boundaryMessage rid) ∧
    getField (boundaryMessage rid) "verification_results" =
      some (.obj [("recaptcha_score", .num 10000), ("sms_verified", .num 1),
        ("bio_verified", .num 1)]) ∧
    getField (boundaryMessage rid) "public_inputs" =
      some (.obj [("w1", .num 1500), ("w2", .num 2000), ("w3", .num 2500),
        ("w4", .num 4000), ("expected_output", .num 255)]) ∧
    score 1500 2000 2500 4000 10000 1 1 = 255 ∧
    score 1500 2000 2500 4000 r s b ≤ 255 := by
  refine ⟨rfl, json_loads_dumps _, rfl, rfl, rfl, ?_⟩
  unfold score
  omega

/-- Witness for C3 at the shipped maximal inputs. -/
theorem c3_boundary_scenario_saturates_witness :
    (10000 : Nat) ≤ 10000 ∧ (1 : Nat) ≤ 1 ∧ (1 : Nat) ≤ 1 ∧
    score 1500 2000 2500 4000 10000 1 1 = 255 := by
  have hr : (10000 : Nat) ≤ 10000 := Nat.le_refl 10000
  have hs : (1 : Nat) ≤ 1 := Nat.le_refl 1
  exact ⟨hr, hs, hs,
    (c3_boundary_scenario_saturates "b-1" 10000 1 1 hr hs hs).2.2.2.2.1⟩

/-- C4: an unrecognized scenario makes the generator fail with the
`Unknown scenario` error and no payload is produced. -/
theorem c4_unknown_scenario_errors (rid scenario : String)
    (h1 : scenario ≠ "normal") (h2 : scenario ≠ "boundary")
    (h3 : scenario ≠ "invalid_json") (h4 : scenario ≠ "missing_fields") :
    create_test_message rid scenario =
      Except.error ("Unknown scenario: " ++ scenario) := by
  rw [create_test_message, if_neg h1, if_neg h2, if_neg h3, if_neg h4]

/-- Witness for C4 at the concrete scenario `bogus`. -/
theorem c4_unknown_scenario_errors_witness :
    "bogus" ≠ "normal" ∧ "bogus" ≠ "boundary" ∧ "bogus" ≠ "invalid_json" ∧
    "bogus" ≠ "missing_fields" ∧
    create_test_message "r-1" "bogus" =
      Except.error ("Unknown scenario: " ++ "bogus") := by
  have e1 : "bogus" ≠ "normal" := by decide
  have e2 : "bogus" ≠ "boundary" := by decide
  have e3 : "bogus" ≠ "invalid_json" := by decide
  have e4 : "bogus" ≠ "missing_fields" := by decide
  exact ⟨e1, e2, e3, e4, c4_unknown_scenario_errors "r-1" "bogus" e1 e2 e3 e4⟩

/-- C5: for every request id, the InvalidJson scenario returns the fixed
malformed string, and that string fails standard JSON parsing. -/
theorem c5_invalid_json_payload_unparseable (rid : String) :
    create_test_message rid "invalid_json" =
      Except.ok "\x7b invalid json \x7d" ∧
    json_loads "\x7b invalid json \x7d" = none :=
  ⟨rfl, rfl⟩

/-- C6: for every request id, the MissingFields payload parses back as JSON,
its `verification_results` object lacks `bio_verified` while keeping
recaptcha 7500 and sms 1, and the weights and expected output 204 are
present under `public_inputs`. -/
theorem c6_missing_fields_payload (rid : String) :
    create_test_message rid "missing_fields" =
      Except.ok (json_dumps (missingFieldsMessage rid)) ∧
    json_loads (json_dumps (missingFieldsMessage rid)) =
      some (missingFieldsMessage rid) ∧
    getField (missingFieldsMessage rid) "verification_results" =
      some (.obj [("recaptcha_score", .num 7500), ("sms_verified", .num 1)]) ∧
    getField (.obj [("recaptcha_score", .num 7500), ("sms_verified", .num 1)])
      "bio_verified" = none ∧
    getField (missingFieldsMessage rid) "public_inputs" =
      some (.obj [("w1", .num 1500), ("w2", .num 2000), ("w3", .num 2500),
        ("w4", .num 4000), ("expected_output", .num 204)]) :=
  ⟨rfl, json_loads_dumps _, rfl, rfl, rfl⟩

/-- C7: for all fixed-point inputs in range, with weights whose sum keeps
the unscaled weighted total within the 10,000 scale, the scoring formula in
exact integer arithmetic lies in `[0, 255]`. -/
theorem c7_score_bounded (w1 w2 w3 w4 r s b : Nat)
    (hw1 : w1 ≤ 10000) (hw2 : w2 ≤ 10000) (hw3 : w3 ≤ 10000)
    (hw4 : w4 ≤ 10000) (hr : r ≤ 10000) (hs : s ≤ 1) (hb : b ≤ 1)
    (hsum : w1 + w2 + w3 + w4 ≤ 10000) :
    0 ≤ score w1 w2 w3 w4 r s b ∧ score w1 w2 w3 w4 r s b ≤ 255 := by
  refine ⟨Nat.zero_le _, ?_⟩
  unfold score
  have h2 : w2 * r / 10000 ≤ w2 := by
    have hmul : w2 * r ≤ w2 * 10000 := Nat.mul_le_mul (Nat.le_refl w2) hr
    have hdiv : w2 * r / 10000 ≤ w2 * 10000 / 10000 := Nat.div_le_div_right hmul
    have hcan : w2 * 10000 / 10000 = w2 := Nat.mul_div_cancel w2 (by omega)
    omega
  have h3 : w3 * s ≤ w3 := by
    have := Nat.mul_le_mul (Nat.le_refl w3) hs
    omega
  have h4 : w4 * b ≤ w4 := by
    have := Nat.mul_le_mul (Nat.le_refl w4) hb
    omega
  have hS : w1 + w2 * r / 10000 + w3 * s + w4 * b ≤ 10000 := by omega
  have hmul : (w1 + w2 * r / 10000 + w3 * s + w4 * b) * 255 ≤ 10000 * 255 :=
    Nat.mul_le_mul hS (Nat.le_refl 255)
  have hdiv : (w1 + w2 * r / 10000 + w3 * s + w4 * b) * 255 / 10000 ≤
      10000 * 255 / 10000 := Nat.div_le_div_right hmul
  omega

/-- Witness for C7 at the shipped Normal fixture inputs. -/
theorem c7_score_bounded_witness :
    (1500 : Nat) ≤ 10000 ∧ (2000 : Nat) ≤ 10000 ∧ (2500 : Nat) ≤ 10000 ∧
    (4000 : Nat) ≤ 10000 ∧ (7500 : Nat) ≤ 10000 ∧ (1 : Nat) ≤ 1 ∧
    (1 : Nat) ≤ 1 ∧ (1500 : Nat) + 2000 + 2500 + 4000 ≤ 10000 ∧
    score 1500 2000 2500 4000 7500 1 1 ≤ 255 := by
  have b1 : (1500 : Nat) ≤ 10000 := by omega
  have b2 : (2000 : Nat) ≤ 10000 := by omega
  have b3 : (2500 : Nat) ≤ 10000 := by omega
  have b4 : (4000 : Nat) ≤ 10000 := by omega
  have b5 : (7500 : Nat) ≤ 10000 := by omega
  have b6 : (1 : Nat) ≤ 1 := Nat.le_refl 1
  have b7 : (1500 : Nat) + 2000 + 2500 + 4000 ≤ 10000 := by omega
  exact ⟨b1, b2, b3, b4, b5, b6, b6, b7,
    (c7_score_bounded 1500 2000 2500 4000 7500 1 1 b1 b2 b3 b4 b5 b6 b6 b7).2⟩

/-- C8: for every request id, the Normal and Boundary payloads serialize and
parse back to exactly the original message structure, losing no field. -/
theorem c8_round_trip_normal_boundary (rid : String) :
    create_test_message rid "normal" =
      Except.ok (json_dumps (normalMessage rid)) ∧
    json_loads (json_dumps (normalMessage rid)) = some (normalMessage rid) ∧
    create_test_message rid "boundary" =
      Except.ok (json_dumps (boundaryMessage rid)) ∧
    json_loads (json_dumps (boundaryMessage rid)) =
      some (boundaryMessage rid) :=
  ⟨rfl, json_loads_dumps _, rfl, json_loads_dumps _⟩

/-- C9: the generator is a pure function of its arguments: two calls with
the same request id and scenario return the same result. -/
theorem c9_generator_deterministic (rid scenario : String)
    (p q : Except String String)
    (hp : create_test_message rid scenario = p)
    (hq : create_test_message rid scenario = q) : p = q :=
  hp ▸ hq

/-- Witness for C9 at a concrete request id and scenario. -/
theorem c9_generator_deterministic_witness :
    create_test_message "r-1" "normal" = create_test_message "r-1" "normal" :=
  c9_generator_deterministic "r-1" "normal" _ _ rfl rfl

/-- C10: the InvalidJson payload is the constant malformed string,
independent of the request id, while every well-formed scenario embeds the
request id argument as the payload's `request_id` field. -/
theorem c10_invalid_json_constant (rid rid2 : String) :
    create_test_message rid "invalid_json" =
      Except.ok "\x7b invalid json \x7d" ∧
    create_test_message rid "invalid_json" =
      create_test_message rid2 "invalid_json" ∧
    getField (normalMessage rid) "request_id" = some (.str rid) ∧
    getField (boundaryMessage rid) "request_id" = some (.str rid) ∧
    getField (missingFieldsMessage rid) "request_id" = some (.str rid) :=
  ⟨rfl, rfl, rfl, rfl, rfl⟩

end TestPubsub
